import Mathlib

set_option maxRecDepth 40000

/-
  Verification development for mdb-lookup-server.c: a TCP server that loads a
  fixed-format binary record database and answers line-delimited substring
  search queries.  The embedding below models the pure content of
  `processClientRequest` and `main`:
    * bytes are `Nat` (ASCII codes), files and wire lines are `List Byte`;
    * the database load loop (`while (fread(&record, sizeof(record), 1, fp) == 1)`)
      consumes full 250-byte blocks and stops at the first partial block;
    * `strstr`-based matching, the `%4d: {name} said {msg}\n` result formatting,
      the blank-line sentinel, the `strncpy`-based 5-character key extraction,
      and the per-session send loop with its break-on-failed-send behaviour are
      all translated directly from the source.
-/

abbrev Byte := Nat

/-- One `struct MdbRec`: `char name[50]; char msg[200];`.  The fields hold the
C-string contents, i.e. the bytes up to the first NUL of each buffer. -/
structure MdbRec where
  name : List Byte
  msg : List Byte
deriving DecidableEq, Repr

/-- `sizeof(struct MdbRec)` = 50 + 200 = 250 bytes. -/
def recordSize : Nat := 250

/-- Deserialize one full 250-byte block: `name` is the C string in bytes 0..49,
`msg` the C string in bytes 50..249. -/
def parseMdbRec (block : List Byte) : MdbRec :=
  { name := (block.take 50).takeWhile (fun b => b != 0),
    msg := ((block.drop 50).take 200).takeWhile (fun b => b != 0) }

/-- The load loop of `processClientRequest` with explicit fuel:
`fread` returns 1 exactly while a full 250-byte block remains, so full blocks
are appended in file order and a partial trailing block ends the loop
(EOF, not `ferror`). -/
def loadRecordsAux : Nat → List Byte → List MdbRec
  | 0, _ => []
  | fuel + 1, bs =>
    if recordSize ≤ bs.length then
      parseMdbRec (bs.take recordSize) :: loadRecordsAux fuel (bs.drop recordSize)
    else
      []

/-- The records loaded from a database file of bytes `bs`; `bs.length` is
always enough fuel since every step consumes 250 bytes. -/
def loadRecords (bs : List Byte) : List MdbRec :=
  loadRecordsAux bs.length bs

/-- Does `key` occur at the head of `hay`?  (The inner loop of `strstr`.) -/
def leadMatch : List Byte → List Byte → Bool
  | [], _ => true
  | _ :: _, [] => false
  | k :: ks, h :: hs => (k == h) && leadMatch ks hs

/-- C `strstr(hay, key) != NULL`: `key` occurs somewhere in `hay`. -/
def strstrB : List Byte → List Byte → Bool
  | [], key => key.isEmpty
  | h :: hs, key => leadMatch key (h :: hs) || strstrB hs key

/-- The match test of the search loop:
`strstr(currentRecord->name, searchKey) || strstr(currentRecord->msg, searchKey)`. -/
def recMatches (r : MdbRec) (key : List Byte) : Bool :=
  strstrB r.name key || strstrB r.msg key

/-- Decimal digits of `n` as ASCII bytes (most significant first), with
explicit fuel. -/
def decDigitsAux : Nat → Nat → List Byte
  | 0, _ => []
  | fuel + 1, n =>
    if n < 10 then
      [48 + n]
    else
      decDigitsAux fuel (n / 10) ++ [48 + n % 10]

/-- Decimal digits of `n` as ASCII bytes; fuel `n + 1` always suffices since
the argument shrinks by a factor of 10 each step. -/
def decDigits (n : Nat) : List Byte :=
  decDigitsAux (n + 1) n

/-- `%4d`: the decimal rendering right-justified in a field of width 4,
padded with spaces (ASCII 32). -/
def padNum (n : Nat) : List Byte :=
  List.replicate (4 - (decDigits n).length) 32 ++ decDigits n

/-- One result line, `sprintf(resultBuffer, "%4d: {%s} said {%s}\n", ...)`:
ordinal, `": {"`, name, `"} said {"`, msg, `"}"`, newline. -/
def fmtResultLine (ord : Nat) (r : MdbRec) : List Byte :=
  padNum ord ++ [58, 32, 123] ++ r.name ++
    [125, 32, 115, 97, 105, 100, 32, 123] ++ r.msg ++ [125, 10]

/-- The end-of-results sentinel `sprintf(resultBuffer, "\n")`. -/
def blankLine : List Byte := [10]

/-- The search loop over the record list: a running counter `recordCount`
starts at 1 and is incremented once per record examined; matching records are
emitted paired with the counter value at which they were examined. -/
def scanRecords (key : List Byte) : List MdbRec → Nat → List (Nat × MdbRec)
  | [], _ => []
  | r :: rs, n =>
    if recMatches r key then
      (n, r) :: scanRecords key rs (n + 1)
    else
      scanRecords key rs (n + 1)

/-- All matches for `key`, in store order, with their ordinals (counter base 1). -/
def searchResults (store : List MdbRec) (key : List Byte) : List (Nat × MdbRec) :=
  scanRecords key store 1

/-- The full response the server writes for one query when every `send`
succeeds: one formatted line per match, then the blank-line sentinel. -/
def respondLines (store : List MdbRec) (key : List Byte) : List (List Byte) :=
  (searchResults store key).map (fun p => fmtResultLine p.1 p.2) ++ [blankLine]

/-- The newline trim applied to the extracted key buffer.  The C code indexes
`searchKey[strlen(searchKey) - 1]`; when the buffer holds the empty string that
index is out of range, modelled by `none`. -/
def keyOfBuf (searchKey : List Byte) : Option (List Byte) :=
  match searchKey with
  | [] => none
  | _ :: _ =>
    if searchKey.getLast? = some 10 then
      some searchKey.dropLast
    else
      some searchKey

/-- Key extraction from a query line:
`strncpy(searchKey, queryLine, 5)` copies at most 5 bytes and stops at a NUL,
then the trailing newline (if any) is removed. -/
def extractKey (line : List Byte) : Option (List Byte) :=
  keyOfBuf ((line.take 5).takeWhile (fun b => b != 0))

/-- The response the server produces for one raw query line (all sends
succeeding): the key is extracted, then the store is searched.  `none` marks
the out-of-range trim index (empty key buffer). -/
def responseForLine (store : List MdbRec) (line : List Byte) :
    Option (List (List Byte)) :=
  (extractKey line).map (fun key => respondLines store key)

/-- The send loop for the result lines of one query.  `ok k` tells whether the
`k`-th `send` call of the session succeeds (the code treats
`send(...) != resultLength` as failure).  Sends are attempted in order; the
first failure `break`s out, abandoning the remaining result lines.  Returns
the successfully sent lines, the updated send counter (counting attempts), and
whether a send failed. -/
def trySends (ok : Nat → Bool) : Nat → List (List Byte) → List (List Byte) × Nat × Bool
  | ctr, [] => ([], ctr, false)
  | ctr, l :: ls =>
    if ok ctr then
      let rest := trySends ok (ctr + 1) ls
      (l :: rest.1, rest.2.1, rest.2.2)
    else
      ([], ctr + 1, true)

/-- One iteration of the query loop body, given an already-extracted key:
search the store, send each result line (stopping at the first failed send),
then attempt the sentinel send unconditionally (its failure is only logged).
Returns the successfully sent lines and the updated send counter. -/
def processQuery (store : List MdbRec) (ok : Nat → Bool) (ctr : Nat)
    (key : List Byte) : List (List Byte) × Nat :=
  let attempt := trySends ok ctr ((searchResults store key).map (fun p => fmtResultLine p.1 p.2))
  let sentinel := if ok attempt.2.1 then [blankLine] else []
  (attempt.1 ++ sentinel, attempt.2.1 + 1)

/-- The `while (fgets(...))` query loop of one session, over the session's
extracted keys: every key is processed in order — a failed send never ends the
loop, which only stops when `fgets` returns NULL.  Returns all successfully
sent lines of the session and the final send counter. -/
def runSession (store : List MdbRec) (ok : Nat → Bool) (ctr : Nat) :
    List (List Byte) → List (List Byte) × Nat
  | [] => ([], ctr)
  | k :: ks =>
    let q := processQuery store ok ctr k
    let rest := runSession store ok q.2 ks
    (q.1 ++ rest.1, rest.2)

/-- How a session's input ends: `fgets` returning NULL at a clean end-of-stream,
or with the stream's error flag set (the code only `perror`s in the latter
case; both paths fall through to the same cleanup and return). -/
inductive SessionEnd where
  | eos : SessionEnd
  | readError : SessionEnd
deriving DecidableEq, Repr

/-- One accepted client connection: the keys of the query lines it sends, how
its input ends, and the success schedule of the `send` calls to it. -/
structure Conn where
  keys : List (List Byte)
  endSt : SessionEnd
  sendOk : Nat → Bool

/-- The accept loop of `main`, run over a finite prefix of connections:
each connection in turn gets a fresh store loaded from the database file and a
full session (`processClientRequest` returns normally whether the session
ended in end-of-stream or a read error, and the loop continues). -/
def runServer (dbBytes : List Byte) : List Conn → List (List (List Byte))
  | [] => []
  | c :: cs =>
    (runSession (loadRecords dbBytes) c.sendOk 0 c.keys).1 :: runServer dbBytes cs

/-- Modelled from the spec (the code has no such branch): a load that signals
`CorruptDatabase` (`none`) whenever the file size is not an exact multiple of
the record size, and otherwise returns what the code loads. -/
def loadRecordsSpec (bs : List Byte) : Option (List MdbRec) :=
  if bs.length % recordSize = 0 then
    some (loadRecords bs)
  else
    none

/-- `key` occurs contiguously inside `s` (the mathematical reading of
"case-sensitive substring"). -/
def SubstrOf (key s : List Byte) : Prop :=
  ∃ u v, s = u ++ key ++ v

/-- Demo record: name "Ramya", message "hi". -/
def demoRecA : MdbRec := { name := [82, 97, 109, 121, 97], msg := [104, 105] }

/-- Demo record: name "Alex", message "bye". -/
def demoRecB : MdbRec := { name := [65, 108, 101, 120], msg := [98, 121, 101] }

/-- A two-record demo store. -/
def demoStore : List MdbRec := [demoRecA, demoRecB]

/-- A send schedule whose very first send fails and all later sends succeed. -/
def demoFailFirst : Nat → Bool := fun n => decide (0 < n)

/-- A 260-byte database file: one full record of ASCII 65 bytes followed by a
partial trailing block of 10 bytes — its size is not a multiple of 250. -/
def corruptDemoFile : List Byte := List.replicate 250 65 ++ List.replicate 10 66

/-- The record held in the single full block of `corruptDemoFile`. -/
def demoFileRec : MdbRec := { name := List.replicate 50 65, msg := List.replicate 200 65 }

/-- A 500-byte database file: two full records, sizes an exact multiple of 250. -/
def wfDemoFile : List Byte := List.replicate 250 65 ++ List.replicate 250 66

/-- A demo connection whose sends all succeed and whose input ends cleanly. -/
def demoConnGood : Conn :=
  { keys := [[97]], endSt := SessionEnd.eos, sendOk := fun _ => true }

/-- A demo connection whose first send fails and whose input ends in a read
error. -/
def demoConnBad : Conn :=
  { keys := [[97]], endSt := SessionEnd.readError, sendOk := demoFailFirst }

/-- A demo accept sequence: the misbehaving connection arrives first. -/
def demoConns : List Conn := [demoConnBad, demoConnGood]

/-- An empty demo database file. -/
def demoDb : List Byte := []

/-- Demo query line "hellox": 6 bytes, agrees with `demoLine2` on the first 5. -/
def demoLine1 : List Byte := [104, 101, 108, 108, 111, 120]

/-- Demo query line "hello\n": 6 bytes, agrees with `demoLine1` on the first 5. -/
def demoLine2 : List Byte := [104, 101, 108, 108, 111, 10]

example : strstrB [97, 98, 99] [98] = true := by decide
example : strstrB [97, 98, 99] [98, 97] = false := by decide
example : strstrB [] [] = true := by decide
example : extractKey [104, 101, 108, 108, 111, 120] = some [104, 101, 108, 108, 111] := by decide
example : extractKey [104, 105, 10] = some [104, 105] := by decide
example : extractKey [10] = some [] := by decide
example : extractKey [0, 55] = none := by decide
example :
    loadRecords (List.replicate 250 65 ++ List.replicate 10 66) =
      [{ name := List.replicate 50 65, msg := List.replicate 200 65 }] := by
  decide

/-! ### Matching: `strstr` computes the substring relation -/

theorem leadMatch_iff (k h : List Byte) :
    leadMatch k h = true ↔ ∃ t, h = k ++ t := by
  induction k generalizing h with
  | nil =>
    simp [leadMatch]
  | cons c cs ih =>
    cases h with
    | nil =>
      simp [leadMatch]
    | cons d ds =>
      simp only [leadMatch, Bool.and_eq_true, beq_iff_eq, ih]
      constructor
      · rintro ⟨rfl, t, rfl⟩
        exact ⟨t, rfl⟩
      · rintro ⟨t, ht⟩
        cases ht
        exact ⟨rfl, t, rfl⟩

theorem strstrB_iff (h k : List Byte) :
    strstrB h k = true ↔ SubstrOf k h := by
  induction h with
  | nil =>
    simp only [strstrB, List.isEmpty_iff, SubstrOf]
    constructor
    · rintro rfl
      exact ⟨[], [], rfl⟩
    · rintro ⟨u, v, huv⟩
      have hlen := congrArg List.length huv
      simp only [List.length_nil, List.length_append] at hlen
      have hk : k.length = 0 := by omega
      exact List.length_eq_zero.mp hk
  | cons c cs ih =>
    simp only [strstrB, Bool.or_eq_true, leadMatch_iff, ih, SubstrOf]
    constructor
    · rintro (⟨t, ht⟩ | ⟨u, v, huv⟩)
      · exact ⟨[], t, by simpa using ht⟩
      · exact ⟨c :: u, v, by simp [huv]⟩
    · rintro ⟨u, v, huv⟩
      cases u with
      | nil =>
        exact Or.inl ⟨v, by simpa using huv⟩
      | cons x xs =>
        have hx : c = x ∧ cs = xs ++ (k ++ v) := by
          simpa using huv
        exact Or.inr ⟨xs, v, by simp [hx.2, List.append_assoc]⟩

theorem recMatches_iff (r : MdbRec) (key : List Byte) :
    recMatches r key = true ↔ SubstrOf key r.name ∨ SubstrOf key r.msg := by
  simp [recMatches, strstrB_iff]

theorem recMatches_nil (r : MdbRec) : recMatches r [] = true := by
  have : ∀ h : List Byte, strstrB h [] = true := by
    intro h
    induction h with
    | nil => simp [strstrB]
    | cons c cs ih => simp [strstrB, leadMatch]
  simp [recMatches, this]

/-! ### Loading: full blocks in file order, partial tail dropped -/

theorem loadRecordsAux_spec (fuel : Nat) :
    ∀ bs : List Byte, bs.length ≤ fuel →
      loadRecordsAux fuel bs =
        (List.range (bs.length / recordSize)).map
          (fun i => parseMdbRec ((bs.drop (recordSize * i)).take recordSize)) := by
  induction fuel with
  | zero =>
    intro bs hf
    have h0 : bs.length = 0 := by omega
    simp [loadRecordsAux, h0]
  | succ fuel ih =>
    intro bs hf
    by_cases h : recordSize ≤ bs.length
    · have hlen : (bs.drop recordSize).length = bs.length - recordSize := by
        simp
      have hfe : (bs.drop recordSize).length ≤ fuel := by
        simp only [List.length_drop]
        have : 0 < recordSize := by simp [recordSize]
        omega
      have hdiv : bs.length / recordSize = (bs.length - recordSize) / recordSize + 1 :=
        Nat.div_eq_sub_div (by simp [recordSize]) h
      rw [loadRecordsAux, if_pos h, ih _ hfe, hlen, hdiv, List.range_succ_eq_map]
      simp only [List.map_cons, List.map_map]
      congr 1
      refine List.map_congr_left ?_
      intro i _
      have e : recordSize + recordSize * i = recordSize * (i + 1) := by ring
      simp only [Function.comp_apply, Nat.succ_eq_add_one, List.drop_drop, e]
    · have hdiv : bs.length / recordSize = 0 := Nat.div_eq_of_lt (by omega)
      simp [loadRecordsAux, h, hdiv]

/-- What the load loop produces, in closed form: one record per full 250-byte
block, in file order; any partial trailing block is silently dropped. -/
theorem loadRecords_spec (bs : List Byte) :
    loadRecords bs =
      (List.range (bs.length / recordSize)).map
        (fun i => parseMdbRec ((bs.drop (recordSize * i)).take recordSize)) :=
  loadRecordsAux_spec bs.length bs le_rfl

theorem loadRecords_length (bs : List Byte) :
    (loadRecords bs).length = bs.length / recordSize := by
  simp [loadRecords_spec]

/-! ### Result-line formatting -/

theorem padNum_length (n : Nat) : 4 ≤ (padNum n).length := by
  simp only [padNum, List.length_append, List.length_replicate]
  omega

theorem fmtResultLine_ne_blank (ord : Nat) (r : MdbRec) :
    fmtResultLine ord r ≠ blankLine := by
  intro hEq
  have hlen := congrArg List.length hEq
  have hp := padNum_length ord
  simp only [fmtResultLine, blankLine, List.length_append, List.length_cons,
    List.length_nil] at hlen
  omega

/-! ### The search loop: membership and ordinals -/

theorem scanRecords_mem (key : List Byte) (rs : List MdbRec) (n : Nat)
    (p : Nat × MdbRec) :
    p ∈ scanRecords key rs n ↔
      ∃ i, rs.get? i = some p.2 ∧ p.1 = n + i ∧ recMatches p.2 key = true := by
  induction rs generalizing n with
  | nil =>
    simp [scanRecords]
  | cons r rs ih =>
    by_cases hm : recMatches r key = true
    · simp only [scanRecords, hm, if_pos, List.mem_cons, ih]
      constructor
      · rintro (rfl | ⟨i, hi, hp, hq⟩)
        · exact ⟨0, by simp, by simp, hm⟩
        · exact ⟨i + 1, by simpa using hi, by omega, hq⟩
      · rintro ⟨i, hi, hp, hq⟩
        cases i with
        | zero =>
          left
          have : r = p.2 := by simpa using hi
          have hp0 : p.1 = n := by omega
          cases p
          simp_all
        | succ j =>
          right
          exact ⟨j, by simpa using hi, by omega, hq⟩
    · simp only [scanRecords, hm, if_neg, ih, Bool.not_eq_true]
      constructor
      · rintro ⟨i, hi, hp, hq⟩
        exact ⟨i + 1, by simpa using hi, by omega, hq⟩
      · rintro ⟨i, hi, hp, hq⟩
        cases i with
        | zero =>
          have : r = p.2 := by simpa using hi
          subst this
          simp_all
        | succ j =>
          exact ⟨j, by simpa using hi, by omega, hq⟩

theorem scanRecords_nil_key (rs : List MdbRec) (n : Nat) :
    scanRecords [] rs n = List.zip (List.range' n rs.length) rs := by
  induction rs generalizing n with
  | nil =>
    simp [scanRecords]
  | cons r rs ih =>
    simp [scanRecords, recMatches_nil, List.range'_succ, ih]

/-! ### The send loop -/

theorem trySends_allOk (ok : Nat → Bool) (hok : ∀ n, ok n = true) :
    ∀ (ls : List (List Byte)) (ctr : Nat),
      trySends ok ctr ls = (ls, ctr + ls.length, false) := by
  intro ls
  induction ls with
  | nil =>
    intro ctr
    simp [trySends]
  | cons l ls ih =>
    intro ctr
    simp only [trySends, hok, if_true, ih (ctr + 1), List.length_cons]
    refine Prod.ext rfl (Prod.ext ?_ rfl)
    simp
    omega

theorem trySends_fail (ok : Nat → Bool) :
    ∀ (ls : List (List Byte)) (ctr i : Nat),
      (∀ j, j < i → ok (ctr + j) = true) → ok (ctr + i) = false →
      i < ls.length →
      trySends ok ctr ls = (ls.take i, ctr + i + 1, true) := by
  intro ls
  induction ls with
  | nil =>
    intro ctr i _ _ hlt
    simp at hlt
  | cons l ls ih =>
    intro ctr i hpre hfail hlt
    cases i with
    | zero =>
      have h0 : ok ctr = false := by simpa using hfail
      simp [trySends, h0]
    | succ i =>
      have h0 : ok ctr = true := by
        have := hpre 0 (by omega)
        simpa using this
      have hpre2 : ∀ j, j < i → ok (ctr + 1 + j) = true := by
        intro j hj
        have e : ctr + 1 + j = ctr + (j + 1) := by omega
        rw [e]
        exact hpre (j + 1) (by omega)
      have hfail2 : ok (ctr + 1 + i) = false := by
        have e : ctr + 1 + i = ctr + (i + 1) := by omega
        rw [e]
        exact hfail
      have hlt2 : i < ls.length := by
        simpa using hlt
      simp only [trySends, h0, if_true, ih (ctr + 1) i hpre2 hfail2 hlt2,
        List.take_succ_cons]
      refine Prod.ext rfl (Prod.ext ?_ rfl)
      simp
      omega

/-! ### One query iteration and the session loop -/

theorem processQuery_allOk (store : List MdbRec) (ok : Nat → Bool)
    (hok : ∀ n, ok n = true) (ctr : Nat) (key : List Byte) :
    (processQuery store ok ctr key).1 = respondLines store key := by
  simp [processQuery, respondLines, trySends_allOk ok hok, hok]

theorem runSession_cons (store : List MdbRec) (ok : Nat → Bool) (ctr : Nat)
    (k : List Byte) (ks : List (List Byte)) :
    (runSession store ok ctr (k :: ks)).1 =
      (processQuery store ok ctr k).1 ++
        (runSession store ok (processQuery store ok ctr k).2 ks).1 := by
  simp [runSession]

/-! ### The claims -/

/-- Claim C1: for every store, search key and send-counter state, when all
sends succeed, the lines written for a query are exactly the formatted result
lines followed by the sentinel; the response contains exactly one blank line
(`"\n"` alone) and it is the final line written — regardless of how many
records matched. -/
theorem C1_blank_line_sentinel (store : List MdbRec) (key : List Byte) (ctr : Nat) :
    (processQuery store (fun _ => true) ctr key).1 = respondLines store key ∧
    (respondLines store key).count blankLine = 1 ∧
    (respondLines store key).getLast? = some blankLine := by
  refine ⟨processQuery_allOk store _ (fun _ => rfl) ctr key, ?_, ?_⟩
  · rw [respondLines, List.count_append]
    have h0 :
        ((searchResults store key).map (fun p => fmtResultLine p.1 p.2)).count blankLine = 0 := by
      rw [List.count_eq_zero]
      intro hmem
      obtain ⟨p, _, hp⟩ := List.mem_map.mp hmem
      exact fmtResultLine_ne_blank p.1 p.2 hp
    rw [h0]
    simp
  · exact List.getLast?_concat _

/-- Claim C2: a record appears in the result sequence for `key` if and only if
it is in the store and `key` is a case-sensitive substring of its name field
or of its message field. -/
theorem C2_substring_match (store : List MdbRec) (key : List Byte) (r : MdbRec) :
    (∃ n, (n, r) ∈ searchResults store key) ↔
      r ∈ store ∧ (SubstrOf key r.name ∨ SubstrOf key r.msg) := by
  constructor
  · rintro ⟨n, hn⟩
    rw [searchResults, scanRecords_mem] at hn
    obtain ⟨i, hi, _, hm⟩ := hn
    exact ⟨List.get?_mem hi, (recMatches_iff r key).mp hm⟩
  · rintro ⟨hr, hm⟩
    obtain ⟨i, hi⟩ := List.mem_iff_get?.mp hr
    refine ⟨1 + i, ?_⟩
    rw [searchResults, scanRecords_mem]
    exact ⟨i, hi, rfl, (recMatches_iff r key).mpr hm⟩

/-- Claim C3: `(n, r)` is emitted for `key` exactly when `n` is at least 1,
`r` sits at position `n - 1` of the full store in file-load order, and `r`
matches — so the ordinal counts every record examined, matching or not,
independent of how many prior records matched. -/
theorem C3_ordinals_full_store (store : List MdbRec) (key : List Byte)
    (n : Nat) (r : MdbRec) :
    (n, r) ∈ searchResults store key ↔
      1 ≤ n ∧ store.get? (n - 1) = some r ∧ recMatches r key = true := by
  rw [searchResults, scanRecords_mem]
  constructor
  · rintro ⟨i, hi, hn, hm⟩
    have e : n - 1 = i := by omega
    exact ⟨by omega, by rw [e]; exact hi, hm⟩
  · rintro ⟨h1, hg, hm⟩
    exact ⟨n - 1, hg, by omega, hm⟩

/-- Claim C4 is false of the code: a 260-byte file — not a multiple of the
250-byte record size — loads with no corruption signal.  The loader returns
the one full record, silently dropping the 10 trailing bytes, and the server
goes on to serve queries from that store; only the spec-modelled loader
(`loadRecordsSpec`) signals `CorruptDatabase` (`none`) here. -/
theorem C4_counterexample :
    corruptDemoFile.length % recordSize ≠ 0 ∧
    loadRecords corruptDemoFile = [demoFileRec] ∧
    loadRecordsSpec corruptDemoFile = none ∧
    respondLines (loadRecords corruptDemoFile) [120] = [blankLine] := by
  exact ⟨by decide, by decide, by decide, by decide⟩

/-- Claim C4 amended: for every file whose size is not a multiple of 250 the
load nevertheless succeeds, with exactly ⌊size / 250⌋ records — the short
final block (0 < bytes < 250) is discarded by the `fread` loop (EOF, not
`ferror`), not signalled as `CorruptDatabase` as the spec-modelled loader
would. -/
theorem C4_amended_partial_block_dropped (bs : List Byte)
    (h : bs.length % recordSize ≠ 0) :
    loadRecordsSpec bs = none ∧
    (loadRecords bs).length = bs.length / recordSize := by
  constructor
  · simp [loadRecordsSpec, h]
  · exact loadRecords_length bs

/-- Witness for the amended C4 at the concrete 260-byte file. -/
theorem C4_amended_witness :
    corruptDemoFile.length % recordSize ≠ 0 ∧
    (loadRecordsSpec corruptDemoFile = none ∧
      (loadRecords corruptDemoFile).length = corruptDemoFile.length / recordSize) :=
  ⟨by decide, C4_amended_partial_block_dropped corruptDemoFile (by decide)⟩

/-- Claim C5 is false of the code: with a send schedule whose first send
fails, a write failure does occur during the first query, yet the session does
not transition to Closed — the query loop returns to `fgets` and fully serves
the second query, so the two-query session produces output the claim says
cannot exist. -/
theorem C5_counterexample :
    (trySends demoFailFirst 0
        ((searchResults demoStore [97]).map (fun p => fmtResultLine p.1 p.2))).2.2 = true ∧
    (runSession demoStore demoFailFirst 0 [[97], [97]]).1 ≠
      (runSession demoStore demoFailFirst 0 [[97]]).1 := by
  exact ⟨by decide, by decide⟩

/-- Claim C5 amended: when the send of the `i`-th result line of a query
fails, the server aborts the remaining result-line writes of that query (only
the first `i` lines are sent), still attempts the single sentinel send, and
then continues with the next queries on the same connection rather than
closing the session; nothing on this path terminates the process (the code
only calls `perror`). -/
theorem C5_amended_abort_writes_continue (store : List MdbRec) (ok : Nat → Bool)
    (ctr i : Nat) (key : List Byte) (ks : List (List Byte))
    (hpre : ∀ j, j < i → ok (ctr + j) = true)
    (hfail : ok (ctr + i) = false)
    (hlt : i < ((searchResults store key).map (fun p => fmtResultLine p.1 p.2)).length) :
    (processQuery store ok ctr key).1 =
      ((searchResults store key).map (fun p => fmtResultLine p.1 p.2)).take i ++
        (if ok (ctr + i + 1) then [blankLine] else []) ∧
    (runSession store ok ctr (key :: ks)).1 =
      (processQuery store ok ctr key).1 ++
        (runSession store ok (ctr + i + 2) ks).1 := by
  have ht := trySends_fail ok _ ctr i hpre hfail hlt
  have h2 : (processQuery store ok ctr key).2 = ctr + i + 2 := by
    simp [processQuery, ht]
  constructor
  · simp [processQuery, ht]
  · rw [runSession_cons, h2]

/-- Witness for the amended C5: first send fails immediately (`i = 0`), the
matching result line is withheld, the sentinel is still sent, and the second
query is served. -/
theorem C5_amended_witness :
    demoFailFirst (0 + 0) = false ∧
    0 < ((searchResults demoStore [97]).map (fun p => fmtResultLine p.1 p.2)).length ∧
    ((processQuery demoStore demoFailFirst 0 [97]).1 =
        ((searchResults demoStore [97]).map (fun p => fmtResultLine p.1 p.2)).take 0 ++
          (if demoFailFirst (0 + 0 + 1) then [blankLine] else []) ∧
      (runSession demoStore demoFailFirst 0 ([97] :: [[97]])).1 =
        (processQuery demoStore demoFailFirst 0 [97]).1 ++
          (runSession demoStore demoFailFirst (0 + 0 + 2) [[97]]).1) :=
  ⟨by decide, by decide,
    C5_amended_abort_writes_continue demoStore demoFailFirst 0 0 [97] [[97]]
      (fun j hj => absurd hj (by omega)) (by decide) (by decide)⟩

/-- Claim C6: a well-formed file (size an exact multiple of 250 bytes) loads
exactly size/250 records, and the i-th loaded record is the parse of the i-th
250-byte block — the records appear in the store in file order. -/
theorem C6_wellformed_load (bs : List Byte) (h : bs.length % recordSize = 0) :
    (loadRecords bs).length = bs.length / recordSize ∧
    recordSize * (loadRecords bs).length = bs.length ∧
    loadRecords bs =
      (List.range (bs.length / recordSize)).map
        (fun i => parseMdbRec ((bs.drop (recordSize * i)).take recordSize)) := by
  refine ⟨loadRecords_length bs, ?_, loadRecords_spec bs⟩
  rw [loadRecords_length bs]
  exact Nat.mul_div_cancel' (Nat.dvd_of_mod_eq_zero h)

/-- Witness for C6 at a concrete 500-byte file holding two records. -/
theorem C6_witness :
    wfDemoFile.length % recordSize = 0 ∧
    ((loadRecords wfDemoFile).length = wfDemoFile.length / recordSize ∧
      recordSize * (loadRecords wfDemoFile).length = wfDemoFile.length ∧
      loadRecords wfDemoFile =
        (List.range (wfDemoFile.length / recordSize)).map
          (fun i => parseMdbRec ((wfDemoFile.drop (recordSize * i)).take recordSize))) :=
  ⟨by decide, C6_wellformed_load wfDemoFile (by decide)⟩

/-- Claim C7: the empty key matches every record: the results enumerate the
entire store with ordinals 1, 2, …, length in load order, and the response is
one result line per loaded record followed by the blank-line sentinel. -/
theorem C7_empty_key_matches_all (store : List MdbRec) :
    searchResults store [] = List.zip (List.range' 1 store.length) store ∧
    (respondLines store []).length = store.length + 1 ∧
    (respondLines store []).getLast? = some blankLine := by
  refine ⟨scanRecords_nil_key store 1, ?_, List.getLast?_concat _⟩
  simp [respondLines, searchResults, scanRecords_nil_key]

/-- Claim C8: the accept loop serves every connection: the i-th server
response is exactly the i-th connection's full session output, whatever each
session's input-end condition was (clean end-of-stream or read error) and
whatever its send failures were — one session's end never takes down the
accept loop or affects later connections. -/
theorem C8_session_isolation (db : List Byte) (conns : List Conn) :
    (runServer db conns).length = conns.length ∧
    ∀ i c, conns.get? i = some c →
      (runServer db conns).get? i =
        some (runSession (loadRecords db) c.sendOk 0 c.keys).1 := by
  induction conns with
  | nil =>
    refine ⟨rfl, ?_⟩
    intro i c h
    simp at h
  | cons c cs ih =>
    refine ⟨by simp [runServer, ih.1], ?_⟩
    intro i d hd
    cases i with
    | zero =>
      have : c = d := by simpa using hd
      subst this
      simp [runServer]
    | succ j =>
      have := ih.2 j d (by simpa using hd)
      simpa [runServer] using this

/-- Witness for C8: the second (well-behaved) connection is fully served even
though the first connection's session had a failing send and ended in a read
error. -/
theorem C8_witness :
    (runServer demoDb demoConns).get? 1 =
      some (runSession (loadRecords demoDb) demoConnGood.sendOk 0 demoConnGood.keys).1 :=
  (C8_session_isolation demoDb demoConns).2 1 demoConnGood rfl

/-- Claim C9: the search key actually used comes only from the first 5 bytes
of the query line (with a trailing newline among them removed), so any two
query lines that agree on their first 5 bytes produce identical responses
over the same store. -/
theorem C9_key_truncation (store : List MdbRec) (l1 l2 : List Byte)
    (h : l1.take 5 = l2.take 5) :
    responseForLine store l1 = responseForLine store l2 := by
  simp [responseForLine, extractKey, h]

/-- Witness for C9: "hellox" and "hello\n" agree on their first 5 bytes and
get the same response. -/
theorem C9_witness :
    demoLine1.take 5 = demoLine2.take 5 ∧
    responseForLine demoStore demoLine1 = responseForLine demoStore demoLine2 :=
  ⟨by decide, C9_key_truncation demoStore demoLine1 demoLine2 (by decide)⟩

/-- Claim C10: if a query line's first byte exists and is not NUL, the
extracted key buffer is non-empty, so the newline trim's index
`strlen(searchKey) - 1` is in bounds and its out-of-range branch (`none`) is
unreachable under that precondition. -/
theorem C10_trim_index_in_bounds (line : List Byte) (c : Byte)
    (hc : line.head? = some c) (h0 : c ≠ 0) :
    (extractKey line).isSome = true := by
  cases line with
  | nil =>
    simp at hc
  | cons b bs =>
    have hb : b = c := by simpa using hc
    have hb0 : b ≠ 0 := by rw [hb]; exact h0
    have ht : (b :: bs).take 5 = b :: bs.take 4 := rfl
    have hc0 : (b != 0) = true := by simpa using hb0
    rw [extractKey, ht, List.takeWhile_cons, if_pos hc0]
    unfold keyOfBuf
    split
    · simp_all
    · split <;> simp

/-- Witness for C10 at the concrete line "hi\n". -/
theorem C10_witness :
    ([104, 105, 10] : List Byte).head? = some 104 ∧ (104 : Byte) ≠ 0 ∧
    (extractKey [104, 105, 10]).isSome = true :=
  ⟨rfl, by decide, C10_trim_index_in_bounds [104, 105, 10] 104 rfl (by decide)⟩
